import Mathlib

/-!
# Verification of the AGRdatafeed transformation library

Shallow embedding of the core data transformations of the AGRdatafeed
repository (MGI → Alliance of Genome Resources ETL scripts), together with
proofs and refutations of the specified properties.

Embedded components:
* `convertStrand` — strand symbol normalization (`bin/basicGeneInfo.py`).
* `makePubRef` — publication reference resolution (`bin/AGRlib.py`).
* `dataProviders` / `xrefStep` — cross-reference allow-list filtering
  (`basicGeneInfo.py` / `bin/basicGeneInfo.py`, `formatXrefs`).
* `stripVal`/`stripObj` — the null/empty stripper (`bin/AGRlib.py`,
  `stripNulls`).
* `invert`/`flatten` — evidence inversion (`bin/diseasePheno.py`,
  `applyConversions`).
* `refDates` — per-reference annotation-date recording
  (`bin/diseasePheno.py`, `applyConversions`).
* `mergeStreams`/`gby`/`assemble` — k-way merge-join assembly
  (`bin/diseasePheno.py`, `annotations`; `heapq.merge` + `groupby`).
* `visitTerm`/`ancestorsAt` — EMAPA ancestor closure (`bin/emapa_lib.py`).
* `getJsonObj`/`processVariants` — variant conversion and the per-record
  error-skipping driver loop (`bin/variant.py`).

Python `None`-able strings are modelled as `""` when the code only tests
truthiness, and as `Option String` when `None` is a distinct value.
-/

namespace AGRdatafeed

/-! ## Strand normalization (`bin/basicGeneInfo.py`, `convertStrand`)

Python: `return "+" if s in ["+1","1"] else "-" if s == "-1" else "."`
(identical in `basicGeneInfo.py` line 200-201 and `bin/basicGeneInfo.py`
line 130-131). -/

def convertStrand (s : String) : String :=
  if s = "+1" ∨ s = "1" then "+" else if s = "-1" then "-" else "."

/-! ## Publication reference resolution (`bin/AGRlib.py`, `makePubRef`)

Python truthiness on the two identifier strings is modelled by comparison
with `""` (covers both `None` and the empty string). -/

structure PubRef where
  publicationId : String
  crossRefId : String
  pages : List String
  deriving Repr, DecidableEq

def makePubRef (pubmedId mgiId : String) : Option PubRef :=
  let pid :=
    if pubmedId ≠ "" then
      if pubmedId.startsWith "PMID:" then pubmedId else "PMID:" ++ pubmedId
    else mgiId
  if pid ≠ "" then some ⟨pid, mgiId, ["reference"]⟩ else none

/-! ## Cross-reference allow-list (`basicGeneInfo.py` `dataProviders`,
`formatXrefs` xref loop in both gene scripts)

The fixed allow-list table: source-side database names to the output
vocabulary names.  The xref step of `formatXrefs` iterates the
cross-reference rows, keeps only rows whose source name is a key of the
table, translated; the Python `set` is modelled as append-if-absent
(membership-faithful; iteration order of a Python set is unspecified and
no claim depends on it). -/

def dataProviders (s : String) : Option String :=
  if s = "Entrez Gene" then some "NCBIGene"
  else if s = "Ensembl Gene Model" then some "Ensembl"
  else none

def xrefInsert (acc : List (String × String)) (x : String × String) :
    List (String × String) :=
  match dataProviders x.1 with
  | some dp => if (dp, x.2) ∈ acc then acc else acc ++ [(dp, x.2)]
  | none => acc

def xrefStep (rows : List (String × String)) : List (String × String) :=
  rows.foldl xrefInsert []

lemma length_pmid_append (p : String) : ("PMID:" ++ p).length = 5 + p.length := by
  have h5 : ("PMID:").length = 5 := rfl
  rw [String.length_append, h5]

lemma pmid_append_ne_empty (p : String) : "PMID:" ++ p ≠ "" := by
  intro h
  have h2 := congrArg String.length h
  rw [length_pmid_append] at h2
  simp at h2

lemma xrefInsert_mem (acc : List (String × String)) (x : String × String)
    (dp ident : String) :
    (dp, ident) ∈ xrefInsert acc x ↔
      (dp, ident) ∈ acc ∨ (ident = x.2 ∧ dataProviders x.1 = some dp) := by
  unfold xrefInsert
  rcases h : dataProviders x.1 with _ | dpx
  · simp
  · by_cases hmem : (dpx, x.2) ∈ acc
    · simp only [hmem, if_true]
      constructor
      · exact fun hm => Or.inl hm
      · rintro (hm | ⟨rfl, hdp⟩)
        · exact hm
        · cases hdp; exact hmem
    · simp only [hmem, if_false, List.mem_append, List.mem_singleton,
        Prod.mk.injEq, Option.some.injEq]
      constructor
      · rintro (hm | ⟨rfl, rfl⟩)
        · exact Or.inl hm
        · exact Or.inr ⟨rfl, rfl⟩
      · rintro (hm | ⟨rfl, rfl⟩)
        · exact Or.inl hm
        · exact Or.inr ⟨rfl, rfl⟩

lemma xrefStep_go_mem (rows : List (String × String)) :
    ∀ (acc : List (String × String)) (dp ident : String),
      (dp, ident) ∈ rows.foldl xrefInsert acc ↔
        (dp, ident) ∈ acc ∨
          ∃ s, (s, ident) ∈ rows ∧ dataProviders s = some dp := by
  induction rows with
  | nil => intro acc dp ident; simp
  | cons x rest ih =>
    intro acc dp ident
    rw [List.foldl_cons, ih, xrefInsert_mem]
    simp only [List.mem_cons, Prod.ext_iff]
    constructor
    · rintro ((hm | ⟨rfl, hdp⟩) | ⟨s, hs, hdp⟩)
      · exact Or.inl hm
      · exact Or.inr ⟨x.1, Or.inl ⟨rfl, rfl⟩, hdp⟩
      · exact Or.inr ⟨s, Or.inr hs, hdp⟩
    · rintro (hm | ⟨s, ⟨h1, h2⟩ | hs, hdp⟩)
      · exact Or.inl (Or.inl hm)
      · exact Or.inl (Or.inr ⟨h2, h1 ▸ hdp⟩)
      · exact Or.inr ⟨s, hs, hdp⟩

/-! ## The null/empty stripper (`bin/AGRlib.py`, `stripNulls`)

JSON-like values: `jnull` is Python `None`, `atom` covers every scalar
(string/number/boolean — stripping never inspects scalar content), `arr`
a list, `obj` a dict (insertion-ordered association list).

Python (lines 33-42):
```
for k,v in list(obj.items()):
    if v is None or type(v) is list and len(v) == 0: del obj[k]
    elif type(v) is list:
        for i in v:
            if type(i) is dict: stripNulls(i)
    elif type(v) is dict: stripNulls(v)
```
Keys whose value is `None` or `[]` are removed; a list value keeps all its
elements, with dict elements stripped recursively; lists nested inside
lists are NOT traversed; dict values are stripped recursively. -/

inductive JVal where
  | jnull : JVal
  | atom : String → JVal
  | arr : List JVal → JVal
  | obj : List (String × JVal) → JVal

/-- The deletion test: `v is None or type(v) is list and len(v) == 0`. -/
def isBad : JVal → Bool
  | .jnull => true
  | .arr [] => true
  | _ => false

mutual

def stripObj : List (String × JVal) → List (String × JVal)
  | [] => []
  | (k, v) :: rest =>
    if isBad v then stripObj rest
    else (k, stripVal v) :: stripObj rest

def stripVal : JVal → JVal
  | .arr l => .arr (stripElems l)
  | .obj m => .obj (stripObj m)
  | v => v

def stripElems : List JVal → List JVal
  | [] => []
  | .obj m :: rest => .obj (stripObj m) :: stripElems rest
  | v :: rest => v :: stripElems rest

end

/-! `goodObj` states the cleanliness property at the depths `stripNulls`
actually reaches: no key of this dict maps to null or an empty list, dict
values are recursively clean, and dict elements of list values are
recursively clean (elements of nested lists are not inspected, mirroring
the code's traversal). -/

mutual

def goodObj : List (String × JVal) → Bool
  | [] => true
  | (_, v) :: rest => !isBad v && goodVal v && goodObj rest

def goodVal : JVal → Bool
  | .arr l => goodElems l
  | .obj m => goodObj m
  | _ => true

def goodElems : List JVal → Bool
  | [] => true
  | .obj m :: rest => goodObj m && goodElems rest
  | _ :: rest => goodElems rest

end

/-! `deepGoodObj` is the property as the claim words it ("at any nesting
depth, recursively, including mappings found inside sequences and inside
sequences nested within sequences"): it additionally descends into every
element of every sequence. -/

mutual

def deepGoodObj : List (String × JVal) → Bool
  | [] => true
  | (_, v) :: rest => !isBad v && deepGoodVal v && deepGoodObj rest

def deepGoodVal : JVal → Bool
  | .arr l => deepGoodElems l
  | .obj m => deepGoodObj m
  | _ => true

def deepGoodElems : List JVal → Bool
  | [] => true
  | v :: rest => deepGoodVal v && deepGoodElems rest

end

lemma stripElems_ne_nil (x : JVal) (rest : List JVal) :
    stripElems (x :: rest) ≠ [] := by
  cases x <;> simp [stripElems]

lemma isBad_stripVal (v : JVal) (h : isBad v = false) :
    isBad (stripVal v) = false := by
  cases v with
  | jnull => simp [isBad] at h
  | atom s => rfl
  | arr l =>
    cases l with
    | nil => simp [isBad] at h
    | cons x xs =>
      have hne := stripElems_ne_nil x xs
      rw [show stripVal (.arr (x :: xs)) = .arr (stripElems (x :: xs)) from rfl]
      cases hsx : stripElems (x :: xs) with
      | nil => exact absurd hsx hne
      | cons a as => rfl
  | obj m => rfl

lemma strip_strong : ∀ n : Nat,
    (∀ v : JVal, sizeOf v ≤ n →
      stripVal (stripVal v) = stripVal v ∧ goodVal (stripVal v) = true) ∧
    (∀ m : List (String × JVal), sizeOf m ≤ n →
      stripObj (stripObj m) = stripObj m ∧ goodObj (stripObj m) = true) ∧
    (∀ l : List JVal, sizeOf l ≤ n →
      stripElems (stripElems l) = stripElems l ∧
        goodElems (stripElems l) = true) := by
  intro n
  induction n using Nat.strong_induction_on with
  | _ n ih =>
    refine ⟨?_, ?_, ?_⟩
    · intro v hv
      cases v with
      | jnull => exact ⟨rfl, rfl⟩
      | atom s => exact ⟨rfl, rfl⟩
      | arr l =>
        have hl : sizeOf l < n :=
          lt_of_lt_of_le (show sizeOf l < sizeOf (JVal.arr l) by simp) hv
        have hIH := (ih (sizeOf l) hl).2.2 l le_rfl
        constructor
        · show JVal.arr (stripElems (stripElems l)) = JVal.arr (stripElems l)
          rw [hIH.1]
        · show goodElems (stripElems l) = true
          exact hIH.2
      | obj m =>
        have hm : sizeOf m < n :=
          lt_of_lt_of_le (show sizeOf m < sizeOf (JVal.obj m) by simp) hv
        have hIH := (ih (sizeOf m) hm).2.1 m le_rfl
        constructor
        · show JVal.obj (stripObj (stripObj m)) = JVal.obj (stripObj m)
          rw [hIH.1]
        · show goodObj (stripObj m) = true
          exact hIH.2
    · intro m hm
      cases m with
      | nil => exact ⟨rfl, rfl⟩
      | cons hd rest =>
        rcases hd with ⟨k, v⟩
        have hrest : sizeOf rest < n :=
          lt_of_lt_of_le
            (show sizeOf rest < sizeOf ((k, v) :: rest) by simp) hm
        have hv : sizeOf v < n :=
          lt_of_lt_of_le
            (show sizeOf v < sizeOf ((k, v) :: rest) by simp <;> omega) hm
        have hIHr := (ih (sizeOf rest) hrest).2.1 rest le_rfl
        have hIHv := (ih (sizeOf v) hv).1 v le_rfl
        by_cases hb : isBad v = true
        · rw [show stripObj ((k, v) :: rest) = stripObj rest from by
            rw [stripObj, if_pos hb]]
          exact hIHr
        · have hb' : isBad v = false := by
            cases hbv : isBad v
            · rfl
            · exact absurd hbv hb
          have heq : stripObj ((k, v) :: rest)
              = (k, stripVal v) :: stripObj rest := by
            rw [stripObj, if_neg hb]
          have hb2 : isBad (stripVal v) = false := isBad_stripVal v hb'
          rw [heq]
          constructor
          · rw [stripObj, if_neg (by rw [hb2]; simp), hIHv.1, hIHr.1]
          · show (!isBad (stripVal v) && goodVal (stripVal v)
                && goodObj (stripObj rest)) = true
            rw [hb2, hIHv.2, hIHr.2]
            rfl
    · intro l hl
      cases l with
      | nil => exact ⟨rfl, rfl⟩
      | cons x rest =>
        have hrest : sizeOf rest < n :=
          lt_of_lt_of_le
            (show sizeOf rest < sizeOf (x :: rest) by simp) hl
        have hIHr := (ih (sizeOf rest) hrest).2.2 rest le_rfl
        cases x with
        | obj m =>
          have hm2 : sizeOf m < n := by
            have h1 : sizeOf m < sizeOf (JVal.obj m) := by simp
            have h2 : sizeOf (JVal.obj m) < sizeOf (JVal.obj m :: rest) := by
              simp <;> omega
            omega
          have hIHm := (ih (sizeOf m) hm2).2.1 m le_rfl
          constructor
          · show JVal.obj (stripObj (stripObj m)) :: stripElems (stripElems rest)
                = JVal.obj (stripObj m) :: stripElems rest
            rw [hIHm.1, hIHr.1]
          · show (goodObj (stripObj m) && goodElems (stripElems rest)) = true
            rw [hIHm.2, hIHr.2]
            rfl
        | jnull =>
          constructor
          · show JVal.jnull :: stripElems (stripElems rest)
                = JVal.jnull :: stripElems rest
            rw [hIHr.1]
          · exact hIHr.2
        | atom s =>
          constructor
          · show JVal.atom s :: stripElems (stripElems rest)
                = JVal.atom s :: stripElems rest
            rw [hIHr.1]
          · exact hIHr.2
        | arr l2 =>
          constructor
          · show JVal.arr l2 :: stripElems (stripElems rest)
                = JVal.arr l2 :: stripElems rest
            rw [hIHr.1]
          · exact hIHr.2

/-! ## Evidence inversion (`bin/diseasePheno.py`, `applyConversions`)

`ref2codes` is a Python 3 `dict` (insertion-ordered) from a reference key
`(mgiid, pmid)` to a `set` of evidence codes, built with
`ref2codes.setdefault((mgiid,pmid), set()).add(code)`; the inverted
records are then flattened one row per reference per code.  The dict is
modelled as an insertion-ordered association list and the `set` as
append-if-absent (membership-faithful; the multiset round-trip property
is insensitive to iteration order).  The reference key and the code are
type parameters (`ρ`, `γ`); in the source both are strings.

`ref2adate` is built with
`ref2adate.setdefault((mgiid,pmid), getTimeStamp(adate))`: `setdefault`
keeps an existing entry, so the recorded date is the first one
encountered for that key; `getTimeStamp` is the abstract parameter `ts`. -/

variable {ρ γ δ : Type} [DecidableEq ρ] [DecidableEq γ]

def addCode (acc : List (ρ × List γ)) (r : ρ) (c : γ) : List (ρ × List γ) :=
  match acc with
  | [] => [(r, [c])]
  | (r', cs) :: rest =>
    if r = r' then (r', if c ∈ cs then cs else cs ++ [c]) :: rest
    else (r', cs) :: addCode rest r c

def invert (rows : List (ρ × γ)) : List (ρ × List γ) :=
  rows.foldl (fun acc rc => addCode acc rc.1 rc.2) []

def flattenInv (inv : List (ρ × List γ)) : List (ρ × γ) :=
  inv.flatMap (fun rg => rg.2.map (fun c => (rg.1, c)))

def setdefaultDate (acc : List (ρ × δ)) (r : ρ) (d : δ) : List (ρ × δ) :=
  match acc with
  | [] => [(r, d)]
  | (r', d') :: rest =>
    if r = r' then (r', d') :: rest else (r', d') :: setdefaultDate rest r d

def sdStep (ts : δ → δ) (acc : List (ρ × δ)) (rd : ρ × δ) : List (ρ × δ) :=
  setdefaultDate acc rd.1 (ts rd.2)

def refDates (ts : δ → δ) (rows : List (ρ × δ)) : List (ρ × δ) :=
  rows.foldl (sdStep ts) []

def lookupDate (r : ρ) : List (ρ × δ) → Option δ
  | [] => none
  | (r', d) :: rest => if r = r' then some d else lookupDate r rest

lemma flattenInv_nil : flattenInv ([] : List (ρ × List γ)) = [] := rfl

lemma flattenInv_cons (r : ρ) (cs : List γ) (rest : List (ρ × List γ)) :
    flattenInv ((r, cs) :: rest) = cs.map (fun c => (r, c)) ++ flattenInv rest := rfl

lemma flattenInv_addCode (acc : List (ρ × List γ)) (r : ρ) (c : γ)
    (hn : (r, c) ∉ flattenInv acc) :
    List.Perm (flattenInv (addCode acc r c)) (flattenInv acc ++ [(r, c)]) := by
  induction acc with
  | nil => simp [addCode, flattenInv]
  | cons hd rest ih =>
    rcases hd with ⟨r', cs⟩
    rw [flattenInv_cons] at hn
    by_cases hr : r = r'
    · subst hr
      have hc : c ∉ cs := by
        intro hc
        exact hn (List.mem_append_left _ (List.mem_map.mpr ⟨c, hc, rfl⟩))
      have heq : addCode ((r, cs) :: rest) r c = (r, cs ++ [c]) :: rest := by
        simp [addCode, hc]
      rw [heq, flattenInv_cons, flattenInv_cons, List.map_append,
        List.append_assoc, List.append_assoc]
      exact List.Perm.append_left _ (List.perm_append_comm)
    · have hn2 : (r, c) ∉ flattenInv rest := fun h =>
        hn (List.mem_append_right _ h)
      have heq : addCode ((r', cs) :: rest) r c
          = (r', cs) :: addCode rest r c := by
        simp [addCode, hr]
      rw [heq, flattenInv_cons, flattenInv_cons, List.append_assoc]
      exact List.Perm.append_left _ (ih hn2)

lemma invert_go_perm (rows : List (ρ × γ)) :
    ∀ acc : List (ρ × List γ), rows.Nodup →
      (∀ p ∈ rows, p ∉ flattenInv acc) →
      List.Perm (flattenInv (rows.foldl (fun a rc => addCode a rc.1 rc.2) acc))
        (flattenInv acc ++ rows) := by
  induction rows with
  | nil => intro acc _ _; simp
  | cons p rest ih =>
    intro acc hnd hdisj
    rcases p with ⟨r, c⟩
    have h1 : (r, c) ∉ flattenInv acc := hdisj (r, c) (List.mem_cons_self _ _)
    have hperm := flattenInv_addCode acc r c h1
    have hnd2 : rest.Nodup := (List.nodup_cons.mp hnd).2
    have hne : (r, c) ∉ rest := (List.nodup_cons.mp hnd).1
    have hdisj2 : ∀ q ∈ rest, q ∉ flattenInv (addCode acc r c) := by
      intro q hq hmem
      rcases List.mem_append.mp ((hperm.mem_iff).mp hmem) with hin | hin
      · exact hdisj q (List.mem_cons_of_mem _ hq) hin
      · rw [List.mem_singleton] at hin
        subst hin
        exact hne hq
    have h2 := ih (addCode acc r c) hnd2 hdisj2
    rw [List.foldl_cons]
    have h3 : List.Perm
        (flattenInv (rest.foldl (fun a rc => addCode a rc.1 rc.2) (addCode acc r c)))
        ((flattenInv acc ++ [(r, c)]) ++ rest) :=
      h2.trans (hperm.append_right rest)
    have h4 : (flattenInv acc ++ [(r, c)]) ++ rest
        = flattenInv acc ++ ((r, c) :: rest) := by
      rw [List.append_assoc]; rfl
    rw [h4] at h3
    exact h3

lemma lookupDate_setdefault_some (acc : List (ρ × δ)) (r r' : ρ) (d v : δ)
    (h : lookupDate r acc = some v) :
    lookupDate r (setdefaultDate acc r' d) = some v := by
  induction acc with
  | nil => simp [lookupDate] at h
  | cons hd rest ih =>
    rcases hd with ⟨a, b⟩
    by_cases hra : r = a
    · subst hra
      rw [lookupDate, if_pos rfl] at h
      by_cases hr'a : r' = r <;>
        simp [setdefaultDate, hr'a, lookupDate, h]
    · rw [lookupDate, if_neg hra] at h
      by_cases hr'a : r' = a
      · simp [setdefaultDate, hr'a, lookupDate, if_neg hra, h]
      · simp [setdefaultDate, hr'a, lookupDate, if_neg hra, ih h]

lemma lookupDate_setdefault_new (acc : List (ρ × δ)) (r : ρ) (d : δ)
    (h : lookupDate r acc = none) :
    lookupDate r (setdefaultDate acc r d) = some d := by
  induction acc with
  | nil => simp [setdefaultDate, lookupDate]
  | cons hd rest ih =>
    rcases hd with ⟨a, b⟩
    by_cases hra : r = a
    · rw [lookupDate, if_pos hra] at h; exact absurd h (by simp)
    · rw [lookupDate, if_neg hra] at h
      simp [setdefaultDate, hra, lookupDate, if_neg hra, ih h]

lemma lookupDate_setdefault_none (acc : List (ρ × δ)) (r r' : ρ) (d : δ)
    (h : lookupDate r acc = none) (hne : r ≠ r') :
    lookupDate r (setdefaultDate acc r' d) = none := by
  induction acc with
  | nil => simp [setdefaultDate, lookupDate, if_neg hne]
  | cons hd rest ih =>
    rcases hd with ⟨a, b⟩
    by_cases hra : r = a
    · rw [lookupDate, if_pos hra] at h; exact absurd h (by simp)
    · rw [lookupDate, if_neg hra] at h
      by_cases hr'a : r' = a
      · simp [setdefaultDate, hr'a, lookupDate, if_neg hra, h]
      · simp [setdefaultDate, hr'a, lookupDate, if_neg hra, ih h]

lemma lookupDate_fold_none (ts : δ → δ) (xs : List (ρ × δ)) (r : ρ) :
    ∀ acc, r ∉ xs.map Prod.fst → lookupDate r acc = none →
      lookupDate r (xs.foldl (sdStep ts) acc) = none := by
  induction xs with
  | nil => intro acc _ h; simpa using h
  | cons x rest ih =>
    intro acc hx h
    rw [List.map_cons, List.mem_cons] at hx
    push_neg at hx
    rw [List.foldl_cons]
    exact ih _ hx.2 (lookupDate_setdefault_none acc r x.1 (ts x.2) h hx.1)

lemma lookupDate_fold_some (ts : δ → δ) (ys : List (ρ × δ)) (r : ρ) (v : δ) :
    ∀ acc, lookupDate r acc = some v →
      lookupDate r (ys.foldl (sdStep ts) acc) = some v := by
  induction ys with
  | nil => intro acc h; simpa using h
  | cons y rest ih =>
    intro acc h
    rw [List.foldl_cons]
    exact ih _ (lookupDate_setdefault_some acc r y.1 (ts y.2) v h)

/-! ## K-way merge-join assembly (`bin/diseasePheno.py`, `annotations`)

The source tags each keyed, grouped query stream with a role and merges:
```
qs = [
  map(lambda x: (x[0], 'annotation', list(x[1])), groupby(..., lambda e: e['id'])),
  map(lambda x: (x[0], 'evidence',   list(x[1])), groupby(...)),
  map(lambda x: (x[0], 'baseAnnots', list(x[1])), groupby(...)),
]
for x in groupby(heapq.merge(*qs), lambda x: x[0]): ...build composite r...
```
Elements are tuples `(key, role, payload)`; `heapq.merge` compares tuples
lexicographically (the payload is never reached because the role tags are
distinct), and is modelled as iterated sorted binary merge under the
lexicographic (key, role) order `TupR`.  `gby` models
`itertools.groupby` keyed on the first tuple component (consecutive runs
of equal keys).  Each group is folded into exactly one composite record
`r`, so groups are in bijection with composites; `assemble` exposes the
groups. The key type is a parameter (`κ`); in the source it is a string
column. -/

structure KRec (κ π : Type) where
  key : κ
  role : String
  payload : π

variable {κ π : Type}

def TupR [LinearOrder κ] (a b : KRec κ π) : Prop :=
  a.key < b.key ∨ (a.key = b.key ∧ a.role ≤ b.role)

instance [LinearOrder κ] : DecidableRel (@TupR κ π _) := by
  intro a b
  unfold TupR
  infer_instance

instance [LinearOrder κ] : IsTotal (KRec κ π) TupR := by
  constructor
  intro a b
  rcases lt_trichotomy a.key b.key with h | h | h
  · exact Or.inl (Or.inl h)
  · rcases le_total a.role b.role with hr | hr
    · exact Or.inl (Or.inr ⟨h, hr⟩)
    · exact Or.inr (Or.inr ⟨h.symm, hr⟩)
  · exact Or.inr (Or.inl h)

instance [LinearOrder κ] : IsTrans (KRec κ π) TupR := by
  constructor
  rintro a b c (h1 | ⟨h1, h1r⟩) (h2 | ⟨h2, h2r⟩)
  · exact Or.inl (h1.trans h2)
  · exact Or.inl (h2 ▸ h1)
  · exact Or.inl (h1 ▸ h2)
  · exact Or.inr ⟨h1.trans h2, h1r.trans h2r⟩

def mkStream (s : String × List (κ × π)) : List (KRec κ π) :=
  s.2.map fun kp => ⟨kp.1, s.1, kp.2⟩

def mergeStreams [LinearOrder κ] (qs : List (List (KRec κ π))) :
    List (KRec κ π) :=
  qs.foldr (fun s acc => List.merge s acc (TupR · ·)) []

def gby [DecidableEq κ] : List (KRec κ π) → List (κ × List (KRec κ π))
  | [] => []
  | x :: xs =>
    match gby xs with
    | [] => [(x.key, [x])]
    | (k, g) :: rest =>
      if x.key = k then (k, x :: g) :: rest
      else (x.key, [x]) :: (k, g) :: rest

def assemble [LinearOrder κ] (streams : List (String × List (κ × π))) :
    List (κ × List (KRec κ π)) :=
  gby (mergeStreams (streams.map mkStream))

lemma TupR_key_le [LinearOrder κ] {a b : KRec κ π} (h : TupR a b) :
    a.key ≤ b.key := by
  rcases h with h | ⟨h, _⟩
  · exact le_of_lt h
  · exact le_of_eq h

lemma mkStream_sorted [LinearOrder κ] (s : String × List (κ × π))
    (h : (s.2.map Prod.fst).Sorted (· ≤ ·)) :
    (mkStream s).Sorted TupR := by
  unfold mkStream List.Sorted
  rw [List.pairwise_map]
  rw [List.Sorted, List.pairwise_map] at h
  refine h.imp ?_
  intro a b hab
  rcases lt_or_eq_of_le hab with hlt | heq
  · exact Or.inl hlt
  · exact Or.inr ⟨heq, le_refl _⟩

lemma mergeStreams_sorted [LinearOrder κ] (qs : List (List (KRec κ π)))
    (h : ∀ l ∈ qs, l.Sorted TupR) : (mergeStreams qs).Sorted TupR := by
  induction qs with
  | nil => exact List.sorted_nil
  | cons s rest ih =>
    have hs := h s (List.mem_cons_self _ _)
    have hrest := ih fun l hl => h l (List.mem_cons_of_mem _ hl)
    exact List.Sorted.merge hs hrest

lemma mergeStreams_perm [LinearOrder κ] (qs : List (List (KRec κ π))) :
    List.Perm (mergeStreams qs) qs.flatten := by
  induction qs with
  | nil => exact List.Perm.refl _
  | cons s rest ih =>
    have h1 := List.perm_merge (TupR · ·) s (mergeStreams rest)
    exact h1.trans (ih.append_left s)

lemma gby_cons [DecidableEq κ] (x : KRec κ π) (xs : List (KRec κ π)) :
    gby (x :: xs) =
      match gby xs with
      | [] => [(x.key, [x])]
      | (k, g) :: rest =>
        if x.key = k then (k, x :: g) :: rest
        else (x.key, [x]) :: (k, g) :: rest := rfl

lemma gby_cons_nil [DecidableEq κ] (x : KRec κ π) (xs : List (KRec κ π))
    (h : gby xs = []) : gby (x :: xs) = [(x.key, [x])] := by
  rw [gby_cons, h]

lemma gby_cons_eq [DecidableEq κ] (x : KRec κ π) (xs : List (KRec κ π))
    (k : κ) (g : List (KRec κ π)) (rest : List (κ × List (KRec κ π)))
    (h : gby xs = (k, g) :: rest) (hk : x.key = k) :
    gby (x :: xs) = (k, x :: g) :: rest := by
  rw [gby_cons, h]
  exact if_pos hk

lemma gby_cons_ne [DecidableEq κ] (x : KRec κ π) (xs : List (KRec κ π))
    (k : κ) (g : List (KRec κ π)) (rest : List (κ × List (KRec κ π)))
    (h : gby xs = (k, g) :: rest) (hk : x.key ≠ k) :
    gby (x :: xs) = (x.key, [x]) :: (k, g) :: rest := by
  rw [gby_cons, h]
  exact if_neg hk

lemma gby_flatMap [DecidableEq κ] (l : List (KRec κ π)) :
    (gby l).flatMap Prod.snd = l := by
  induction l with
  | nil => rfl
  | cons x xs ih =>
    cases hgb : gby xs with
    | nil =>
      rw [hgb] at ih
      simp only [List.flatMap_nil] at ih
      rw [gby_cons_nil x xs hgb]
      simp [← ih]
    | cons p rest =>
      rcases p with ⟨k, g⟩
      rw [hgb] at ih
      simp only [List.flatMap_cons] at ih
      by_cases hk : x.key = k
      · rw [gby_cons_eq x xs k g rest hgb hk]
        simp only [List.flatMap_cons]
        rw [List.cons_append, ih]
      · rw [gby_cons_ne x xs k g rest hgb hk]
        simp only [List.flatMap_cons]
        rw [List.singleton_append, ih]

lemma gby_groups [DecidableEq κ] (l : List (KRec κ π)) :
    ∀ p ∈ gby l, p.2 ≠ [] ∧ ∀ e ∈ p.2, e.key = p.1 := by
  induction l with
  | nil => intro p hp; simp [gby] at hp
  | cons x xs ih =>
    intro p hp
    cases hgb : gby xs with
    | nil =>
      rw [gby_cons_nil x xs hgb] at hp
      simp only [List.mem_singleton] at hp
      subst hp
      exact ⟨by simp, by intro e he; rw [List.mem_singleton] at he; subst he; rfl⟩
    | cons q rest =>
      rcases q with ⟨k, g⟩
      by_cases hk : x.key = k
      · rw [gby_cons_eq x xs k g rest hgb hk] at hp
        rcases List.mem_cons.mp hp with hp | hp
        · subst hp
          refine ⟨by simp, ?_⟩
          intro e he
          rcases List.mem_cons.mp he with he | he
          · subst he; exact hk
          · exact (ih (k, g) (hgb ▸ List.mem_cons_self _ _)).2 e he
        · exact ih p (hgb ▸ List.mem_cons_of_mem _ hp)
      · rw [gby_cons_ne x xs k g rest hgb hk] at hp
        rcases List.mem_cons.mp hp with hp | hp
        · subst hp
          refine ⟨by simp, ?_⟩
          intro e he
          rw [List.mem_singleton] at he
          subst he; rfl
        · exact ih p (hgb ▸ hp)

lemma gby_mem_keys [DecidableEq κ] (l : List (KRec κ π)) (k : κ) :
    k ∈ (gby l).map Prod.fst ↔ k ∈ l.map KRec.key := by
  constructor
  · intro h
    rcases List.mem_map.mp h with ⟨p, hp, rfl⟩
    rcases gby_groups l p hp with ⟨hne, hkeys⟩
    rcases List.exists_mem_of_ne_nil p.2 hne with ⟨e, he⟩
    have hel : e ∈ l := by
      rw [← gby_flatMap l]
      exact List.mem_flatMap.mpr ⟨p, hp, he⟩
    exact List.mem_map.mpr ⟨e, hel, hkeys e he⟩
  · intro h
    rcases List.mem_map.mp h with ⟨e, hel, rfl⟩
    have : e ∈ (gby l).flatMap Prod.snd := by rw [gby_flatMap]; exact hel
    rcases List.mem_flatMap.mp this with ⟨p, hp, he⟩
    exact List.mem_map.mpr ⟨p, hp, ((gby_groups l p hp).2 e he).symm⟩

lemma gby_sorted [LinearOrder κ] (l : List (KRec κ π))
    (hs : (l.map KRec.key).Sorted (· ≤ ·)) :
    ((gby l).map Prod.fst).Sorted (· < ·) := by
  induction l with
  | nil => simp [gby]
  | cons x xs ih =>
    rw [List.map_cons, List.sorted_cons] at hs
    have ihs := ih hs.2
    cases hgb : gby xs with
    | nil => rw [gby_cons_nil x xs hgb]; simp
    | cons q rest =>
      rcases q with ⟨k, g⟩
      rw [hgb] at ihs
      have hkxs : k ∈ xs.map KRec.key := by
        rw [← gby_mem_keys, hgb]
        exact List.mem_map.mpr ⟨(k, g), List.mem_cons_self _ _, rfl⟩
      by_cases hk : x.key = k
      · rw [gby_cons_eq x xs k g rest hgb hk]
        exact ihs
      · rw [gby_cons_ne x xs k g rest hgb hk]
        have hxk : x.key < k := lt_of_le_of_ne (hs.1 k hkxs) hk
        rw [List.map_cons, List.sorted_cons]
        refine ⟨?_, ihs⟩
        intro b hb
        rcases List.mem_cons.mp hb with hb | hb
        · subst hb; exact hxk
        · rw [List.map_cons, List.sorted_cons] at ihs
          exact hxk.trans (ihs.1 b hb)

/-! ## EMAPA ancestor closure (`bin/emapa_lib.py`, `ancestorsAt`)

```
def ancestorsAt (termId, stage) :
    ancestors = set([termId])
    def _(t):
        for pid in id2pids.get(t["accid"],[]):
            p = id2emapa[pid]
            if p["startstage"] <= stage and p["endstage"] >= stage:
                ancestors.add(pid)
                _(p)
    _(id2emapa[termId])
    return ancestors
```
`id2emapa` is `terms` (`id2emapa[pid]` raises `KeyError` for an id absent
from the table, aborting the run; that branch is modelled as contributing
nothing, and every theorem is stated so that it does not depend on it).
`id2pids.get(t, [])` is `parents`.  The recursion carries NO visited-set:
a parent already collected is re-entered.  `visitTerm g stage fuel t` is
the trace of term ids the walk adds/enters below `t` (with repetitions,
in visit order), with `fuel` bounding the recursion depth — the Python
call stack; the set `ancestors` is the root plus the deduplicated trace.
Term ids are a type parameter `ι`; in the source they are strings. -/

structure ETerm where
  startstage : Nat
  endstage : Nat
  deriving Repr, DecidableEq

structure EmapaData (ι : Type) where
  terms : ι → Option ETerm
  parents : ι → List ι

variable {ι : Type}

/-- The guard `p["startstage"] <= stage and p["endstage"] >= stage` on
the looked-up parent term (`false` on a lookup miss; see the note above
on `KeyError`). -/
def stageValid (stage : Nat) : Option ETerm → Bool
  | none => false
  | some p => decide (p.startstage ≤ stage) && decide (stage ≤ p.endstage)

def visitTerm (g : EmapaData ι) (stage : Nat) : Nat → ι → List ι
  | 0, _ => []
  | fuel + 1, t =>
    (g.parents t).flatMap fun pid =>
      if stageValid stage (g.terms pid) then pid :: visitTerm g stage fuel pid
      else []

def ancestorsAt [DecidableEq ι] (g : EmapaData ι) (fuel : Nat) (termId : ι)
    (stage : Nat) : List ι :=
  (termId :: visitTerm g stage fuel termId).dedup

/-- The term `p` exists in the loaded table and its validity interval
contains `stage`. -/
def ValidAt (g : EmapaData ι) (stage : Nat) (p : ι) : Prop :=
  ∃ tp, g.terms p = some tp ∧ tp.startstage ≤ stage ∧ stage ≤ tp.endstage

/-- `ValidReach g stage t x`: `x` is a proper ancestor of `t` reachable by
walking parent edges through stage-valid terms only (each term on the
path, including `x`, is valid at `stage`). -/
inductive ValidReach (g : EmapaData ι) (stage : Nat) : ι → ι → Prop
  | step {t p} : p ∈ g.parents t → ValidAt g stage p → ValidReach g stage t p
  | head {t p q} : p ∈ g.parents t → ValidAt g stage p →
      ValidReach g stage p q → ValidReach g stage t q

lemma stageValid_iff (stage : Nat) (o : Option ETerm) :
    stageValid stage o = true ↔
      ∃ p, o = some p ∧ p.startstage ≤ stage ∧ stage ≤ p.endstage := by
  cases o with
  | none => simp [stageValid]
  | some p => simp [stageValid]

lemma validAt_iff (g : EmapaData ι) (stage : Nat) (pid : ι) :
    ValidAt g stage pid ↔ stageValid stage (g.terms pid) = true := by
  rw [stageValid_iff]
  rfl

lemma visitTerm_sound (g : EmapaData ι) (stage : Nat) :
    ∀ (fuel : Nat) (t x : ι), x ∈ visitTerm g stage fuel t →
      ValidAt g stage x ∧ ValidReach g stage t x := by
  intro fuel
  induction fuel with
  | zero => intro t x hx; simp [visitTerm] at hx
  | succ fuel ih =>
    intro t x hx
    rw [visitTerm] at hx
    rcases List.mem_flatMap.mp hx with ⟨pid, hpid, hx⟩
    by_cases hsv : stageValid stage (g.terms pid) = true
    · rw [if_pos hsv] at hx
      have hva : ValidAt g stage pid := (validAt_iff g stage pid).mpr hsv
      rcases List.mem_cons.mp hx with rfl | hx
      · exact ⟨hva, ValidReach.step hpid hva⟩
      · rcases ih pid x hx with ⟨hvx, hrx⟩
        exact ⟨hvx, ValidReach.head hpid hva hrx⟩
    · rw [if_neg hsv] at hx
      simp at hx

/-- Fuel-independence of the walk, given a rank function that strictly
decreases across stage-valid parent edges (the acyclicity witness): once
the fuel reaches the rank of the queried term the result is fixed.  This
is the termination statement in the fuel model. -/
lemma visitTerm_stable_aux (g : EmapaData ι) (stage : Nat) (h : ι → Nat)
    (hrank : ∀ t pid, pid ∈ g.parents t → ValidAt g stage pid →
      h pid < h t) :
    ∀ (n : Nat) (t : ι) (f f' : Nat), h t ≤ n → h t ≤ f → h t ≤ f' →
      visitTerm g stage f t = visitTerm g stage f' t := by
  intro n
  induction n using Nat.strong_induction_on with
  | _ n ihn =>
    intro t f f' hn hf hf'
    have hbranch : ∀ a b : Nat, h t ≤ a + 1 → h t ≤ b + 1 →
        visitTerm g stage (a + 1) t = visitTerm g stage (b + 1) t := by
      intro a b ha hb
      rw [visitTerm, visitTerm]
      apply List.flatMap_congr
      intro pid hpid
      by_cases hsv : stageValid stage (g.terms pid) = true
      · rw [if_pos hsv, if_pos hsv]
        have hlt : h pid < h t :=
          hrank t pid hpid ((validAt_iff g stage pid).mpr hsv)
        have hna : h pid < n := by omega
        rw [ihn (h pid) hna pid a b le_rfl (by omega) (by omega)]
      · rw [if_neg hsv, if_neg hsv]
    have hzero : ∀ b : Nat, h t = 0 → visitTerm g stage (b + 1) t = [] := by
      intro b h0
      rw [visitTerm]
      have hnil : ∀ pid ∈ g.parents t,
          (if stageValid stage (g.terms pid) then
            pid :: visitTerm g stage b pid
          else []) = ([] : List ι) := by
        intro pid hpid
        by_cases hsv : stageValid stage (g.terms pid) = true
        · have := hrank t pid hpid ((validAt_iff g stage pid).mpr hsv)
          omega
        · rw [if_neg hsv]
      rw [List.flatMap_congr hnil]
      simp
    match f, f' with
    | 0, 0 => rfl
    | 0, b + 1 =>
      have h0 : h t = 0 := Nat.le_zero.mp hf
      rw [visitTerm, hzero b h0]
    | a + 1, 0 =>
      have h0 : h t = 0 := Nat.le_zero.mp hf'
      rw [visitTerm, hzero a h0]
    | a + 1, b + 1 => exact hbranch a b hf hf'

/-! ## Variant conversion and driver loop (`bin/variant.py`)

`getJsonObj` builds the record `rr` (the `int(...)` coordinate
conversions and the `chr2accid[build][chromosome]` lookup can raise,
modelled as `Except.error`), then branches on the variant type:
* deletion `SO:0000159`: variant sequence must have length 1 and equal
  the first base of the genomic sequence (the padding base), else
  `return None`; `grs[0]` on an empty genomic sequence raises
  `IndexError`;
* insertion `SO:0000667`: symmetric;
* MNV `SO:0002007`: sequences must have equal lengths, else `None`;
* delins `SO:1000032`: no checks;
* point mutation `SO:1000008`: both sequences must have length 1, else
  `None`;
* any other type: `raise RuntimeError("Unknown or unhandled vtype: ...")`.

The driver loop (`main`, lines 144-164) wraps the conversion of each row
in `try/except`: an exception logs a `"Skipping variant because of
error: key=..."` diagnostic to stderr and continues with the next row; a
`None` result is skipped silently (`if not j: continue`).
`processVariants` returns the emitted records and the error-stream lines.
The `stripNulls` call inside `rr`'s construction only drops null fields
at serialization (here `Option` fields) and does not affect control
flow; the record fields `start`/`end` are named `startPos`/`endPos`
(`end` is reserved).  `parseInt?` models `int(...)` on an optional minus
sign followed by decimal digits, failing on anything else (as `int(...)`
raises `ValueError` on non-numeric text). -/

def chrTable : List (String × String) :=
  [("1", "NC_000067.6"), ("2", "NC_000068.7"), ("3", "NC_000069.6"),
   ("4", "NC_000070.6"), ("5", "NC_000071.6"), ("6", "NC_000072.6"),
   ("7", "NC_000073.6"), ("8", "NC_000074.6"), ("9", "NC_000075.6"),
   ("10", "NC_000076.6"), ("11", "NC_000077.6"), ("12", "NC_000078.6"),
   ("13", "NC_000079.6"), ("14", "NC_000080.6"), ("15", "NC_000081.6"),
   ("16", "NC_000082.6"), ("17", "NC_000083.6"), ("18", "NC_000084.6"),
   ("19", "NC_000085.6"), ("X", "NC_000086.7"), ("Y", "NC_000087.7"),
   ("MT", "NC_005089.1")]

def chr2accid (build chrom : String) : Option String :=
  if build = "GRCm38" then chrTable.lookup chrom else none

/-- `S_RE = re.compile('[^a-zA-Z-]')`; `cleanseSequence` deletes every
character that is not an ASCII letter or a hyphen. -/
def isSeqChar (c : Char) : Bool :=
  ('a' ≤ c && c ≤ 'z') || ('A' ≤ c && c ≤ 'Z') || c = '-'

def cleanseSequence (s : String) : String :=
  ⟨s.data.filter isSeqChar⟩

def digit? (c : Char) : Option Nat :=
  if '0' ≤ c && c ≤ '9' then some (c.toNat - ('0').toNat) else none

def parseDigits : Option Nat → List Char → Option Nat
  | acc, [] => acc
  | acc, c :: rest =>
    match acc, digit? c with
    | some n, some d => parseDigits (some (n * 10 + d)) rest
    | _, _ => none

def parseInt? (s : String) : Option Int :=
  match s.data with
  | [] => none
  | ['-'] => none
  | '-' :: rest => (parseDigits (some 0) rest).map fun n => -(n : Int)
  | l => (parseDigits (some 0) l).map fun n => (n : Int)

structure VRow where
  variant_key : String
  allele_id : String
  build : String
  chromosome : String
  startcoordinate : String
  endcoordinate : String
  referencesequence : String
  variantsequence : String
  vtype : Option String
  effect : Option String
  refs : List String
  note : Option String
  deriving Repr, DecidableEq

structure VObj where
  alleleId : String
  assembly : String
  chromosome : String
  startPos : Int
  endPos : Int
  genomicReferenceSequence : String
  genomicVariantSequence : String
  vtype : String
  consequence : Option String
  accession : String
  refs : List String
  note : Option String
  paddedBase : Option String
  deriving Repr, DecidableEq

def getJsonObj (r : VRow) : Except String (Option VObj) :=
  match parseInt? r.startcoordinate, parseInt? r.endcoordinate,
      chr2accid r.build r.chromosome with
  | some st, some en, some acc =>
    let grs := cleanseSequence r.referencesequence
    let gvs := cleanseSequence r.variantsequence
    match r.vtype with
    | none => Except.error "Unknown or unhandled vtype: None"
    | some vt =>
      if vt = "SO:0000159" then
        if gvs.length ≠ 1 then Except.ok none
        else if grs.length = 0 then Except.error "IndexError"
        else if grs.take 1 ≠ gvs then Except.ok none
        else Except.ok (some ⟨r.allele_id, r.build, r.chromosome, st + 1, en,
          grs.drop 1, "N/A", vt, r.effect, "RefSeq:" ++ acc, r.refs, r.note,
          some gvs⟩)
      else if vt = "SO:0000667" then
        if grs.length ≠ 1 then Except.ok none
        else if gvs.length = 0 then Except.error "IndexError"
        else if grs ≠ gvs.take 1 then Except.ok none
        else Except.ok (some ⟨r.allele_id, r.build, r.chromosome, st, en,
          "N/A", gvs.drop 1, vt, r.effect, "RefSeq:" ++ acc, r.refs, r.note,
          some grs⟩)
      else if vt = "SO:0002007" then
        if grs.length ≠ gvs.length then Except.ok none
        else Except.ok (some ⟨r.allele_id, r.build, r.chromosome, st, en,
          grs, gvs, vt, r.effect, "RefSeq:" ++ acc, r.refs, r.note, none⟩)
      else if vt = "SO:1000032" then
        Except.ok (some ⟨r.allele_id, r.build, r.chromosome, st, en,
          grs, gvs, vt, r.effect, "RefSeq:" ++ acc, r.refs, r.note, none⟩)
      else if vt = "SO:1000008" then
        if grs.length ≠ 1 ∨ gvs.length ≠ 1 then Except.ok none
        else Except.ok (some ⟨r.allele_id, r.build, r.chromosome, st, en,
          grs, gvs, vt, r.effect, "RefSeq:" ++ acc, r.refs, r.note, none⟩)
      else Except.error ("Unknown or unhandled vtype: " ++ vt)
  | _, _, _ => Except.error "conversion error"

def processVariants : List VRow → List VObj × List String
  | [] => ([], [])
  | r :: rest =>
    let p := processVariants rest
    match getJsonObj r with
    | Except.error _ =>
      (p.1, ("Skipping variant because of error: key=" ++ r.variant_key)
        :: p.2)
    | Except.ok none => p
    | Except.ok (some j) => (j :: p.1, p.2)

/-- The row's coordinates parse and its chromosome has an accession: the
parts of `rr`'s construction that can raise succeed. -/
def wellFormed (r : VRow) : Prop :=
  (parseInt? r.startcoordinate).isSome ∧ (parseInt? r.endcoordinate).isSome ∧
  (chr2accid r.build r.chromosome).isSome

lemma processVariants_append (xs ys : List VRow) :
    processVariants (xs ++ ys)
      = ((processVariants xs).1 ++ (processVariants ys).1,
         (processVariants xs).2 ++ (processVariants ys).2) := by
  induction xs with
  | nil => simp [processVariants]
  | cons x rest ih =>
    simp only [List.cons_append, processVariants, List.append_eq]
    rw [ih]
    cases hx : getJsonObj x with
    | error e => simp
    | ok o =>
      cases o with
      | none => simp
      | some j => simp

/-- A well-formed point-mutation row that converts successfully. -/
def vRowOk1 : VRow :=
  ⟨"k1", "A1", "GRCm38", "1", "100", "100", "A", "G",
    some "SO:1000008", none, [], none⟩

/-- A row whose variant type is unknown: conversion raises. -/
def vRowUnknown : VRow :=
  ⟨"k2", "A2", "GRCm38", "1", "100", "100", "A", "G",
    some "SO:9999999", none, [], none⟩

/-- Another well-formed point-mutation row. -/
def vRowOk2 : VRow :=
  ⟨"k3", "A3", "GRCm38", "1", "100", "100", "A", "G",
    some "SO:1000008", none, [], none⟩

/-- A deletion row whose variant sequence has length 2: the length check
fails and conversion returns `None`. -/
def vRowDelBad : VRow :=
  ⟨"k4", "A4", "GRCm38", "1", "100", "100", "A", "GG",
    some "SO:0000159", none, [], none⟩

/-- A three-term chain for exercising stage pruning: `0`'s parent is `1`
(valid at every stage in `[0,5]`), whose parent is `2` (valid only in
`[3,5]`). -/
def g6 : EmapaData Nat where
  terms := fun t =>
    if t = 0 then some ⟨0, 5⟩
    else if t = 1 then some ⟨0, 5⟩
    else if t = 2 then some ⟨3, 5⟩
    else none
  parents := fun t => if t = 0 then [1] else if t = 1 then [2] else []

/-- A diamond: `3`'s parents are `2` and `1`, each of whose parent is the
shared top term `0`; every term is valid at every stage in `[0,10]`. -/
def g7 : EmapaData Nat where
  terms := fun t => if t ≤ 3 then some ⟨0, 10⟩ else none
  parents := fun t =>
    if t = 3 then [2, 1] else if t = 2 then [0] else if t = 1 then [0] else []

/-! ## Claim theorems for the formatters -/

/-- C8: `convertStrand` is total with range `{"+", "-", "."}`: it maps both
`"+1"` and `"1"` to `"+"`, `"-1"` to `"-"`, and every other input
(including `"0"`) to `"."`. -/
theorem convertStrand_spec (s : String) :
    convertStrand s ∈ (["+", "-", "."] : List String) ∧
    convertStrand "+1" = "+" ∧ convertStrand "1" = "+" ∧
    convertStrand "-1" = "-" ∧
    (s ≠ "+1" → s ≠ "1" → s ≠ "-1" → convertStrand s = ".") := by
  refine ⟨?_, by decide, by decide, by decide, fun h1 h2 h3 => ?_⟩
  · by_cases h : (s = "+1" ∨ s = "1") <;> by_cases h' : s = "-1" <;>
      simp [convertStrand, h, h']
  · have hor : ¬(s = "+1" ∨ s = "1") := by
      rintro (h | h) <;> [exact h1 h; exact h2 h]
    simp [convertStrand, hor, h3]

/-- Witness for C8 at the concrete input `"0"`. -/
theorem convertStrand_spec_witness : convertStrand "0" = "." :=
  (convertStrand_spec "0").2.2.2.2 (by decide) (by decide) (by decide)

/-- C5: `makePubRef pubmedId mgiId` returns `none` exactly when both
identifiers are empty; otherwise the publication id is the PubMed id
prefixed with `"PMID:"` (unchanged when already so prefixed) when the
PubMed id is present, and is the MGI id otherwise. -/
theorem makePubRef_spec (p m : String) :
    (makePubRef p m = none ↔ (p = "" ∧ m = "")) ∧
    (p ≠ "" →
      makePubRef p m =
        some ⟨if p.startsWith "PMID:" then p else "PMID:" ++ p, m,
          ["reference"]⟩) ∧
    (p = "" → m ≠ "" → makePubRef p m = some ⟨m, m, ["reference"]⟩) := by
  by_cases hp : p = ""
  · subst hp
    by_cases hm : m = "" <;> simp [makePubRef, hm]
  · by_cases hs : p.startsWith "PMID:" <;>
      simp [makePubRef, hp, hs, pmid_append_ne_empty]

/-- Witness for C5: a bare PubMed id gets the `"PMID:"` prefix. -/
theorem makePubRef_spec_witness :
    makePubRef "123" "MGI:7" = some ⟨"PMID:123", "MGI:7", ["reference"]⟩ := by
  have h := (makePubRef_spec "123" "MGI:7").2.1 (by decide)
  rwa [if_neg (by decide)] at h

/-- C9: in the gene formatter's cross-reference step, a row whose source
name is not a key of the `dataProviders` allow-list contributes nothing,
and a row whose source name is a key is retained with the source replaced
by the table's output name: the output pairs are exactly the translated
allow-listed input rows. -/
theorem formatXrefs_allowlist (rows : List (String × String))
    (dp ident : String) :
    (dp, ident) ∈ xrefStep rows ↔
      ∃ s, (s, ident) ∈ rows ∧ dataProviders s = some dp := by
  have h := xrefStep_go_mem rows [] dp ident
  simpa [xrefStep] using h

/-- C1: for every finite list of role-tagged input record streams, each
internally sorted ascending by the shared primary key and each tagged
with a distinct role name, the k-way merge-join assembler (`heapq.merge`
of the keyed grouped streams followed by `groupby` on the key) yields
exactly one composite group per distinct key, in ascending key order with
no duplicate keys, and every key present in any input stream appears
exactly once in the output. -/
theorem assemble_spec [LinearOrder κ] (streams : List (String × List (κ × π)))
    (hroles : (streams.map Prod.fst).Nodup)
    (hsorted : ∀ s ∈ streams, (s.2.map Prod.fst).Sorted (· ≤ ·)) :
    ((assemble streams).map Prod.fst).Sorted (· < ·) ∧
    (∀ k, k ∈ (assemble streams).map Prod.fst ↔
        ∃ s ∈ streams, k ∈ s.2.map Prod.fst) ∧
    (∀ k ∈ (assemble streams).map Prod.fst,
        ((assemble streams).map Prod.fst).count k = 1) := by
  have hmsorted : (mergeStreams (streams.map mkStream)).Sorted TupR := by
    apply mergeStreams_sorted
    intro l hl
    rcases List.mem_map.mp hl with ⟨s, hs, rfl⟩
    exact mkStream_sorted s (hsorted s hs)
  have hkeysorted :
      ((mergeStreams (streams.map mkStream)).map KRec.key).Sorted (· ≤ ·) :=
    hmsorted.map _ (fun a b h => TupR_key_le h)
  have hstrict : ((assemble streams).map Prod.fst).Sorted (· < ·) :=
    gby_sorted _ hkeysorted
  refine ⟨hstrict, ?_, ?_⟩
  · intro k
    show k ∈ (gby (mergeStreams (streams.map mkStream))).map Prod.fst ↔ _
    rw [gby_mem_keys]
    have hperm := (mergeStreams_perm (streams.map mkStream)).map KRec.key
    rw [hperm.mem_iff]
    constructor
    · intro h
      rcases List.mem_map.mp h with ⟨x, hx, rfl⟩
      rcases List.mem_flatten.mp hx with ⟨l, hl, hxl⟩
      rcases List.mem_map.mp hl with ⟨s, hs, rfl⟩
      rcases List.mem_map.mp hxl with ⟨kp, hkp, rfl⟩
      exact ⟨s, hs, List.mem_map.mpr ⟨kp, hkp, rfl⟩⟩
    · rintro ⟨s, hs, hk⟩
      rcases List.mem_map.mp hk with ⟨kp, hkp, rfl⟩
      refine List.mem_map.mpr ⟨⟨kp.1, s.1, kp.2⟩, ?_, rfl⟩
      exact List.mem_flatten.mpr
        ⟨mkStream s, List.mem_map.mpr ⟨s, hs, rfl⟩,
          List.mem_map.mpr ⟨kp, hkp, rfl⟩⟩
  · intro k hk
    have hnd : ((assemble streams).map Prod.fst).Nodup :=
      hstrict.imp (fun h => ne_of_lt h)
    exact List.count_eq_one_of_mem hnd hk

/-- Witness for C1 on two concrete sorted streams with distinct roles:
the assembled key sequence is strictly ascending and key `2`, present
only in the second stream, appears in the output. -/
theorem assemble_spec_witness :
    ((assemble [("annotation", [(1, "a"), (3, "b")]),
        ("evidence", [(1, "x"), (2, "y"), (3, "z")])]).map Prod.fst).Sorted
      (· < ·) ∧
    2 ∈ (assemble [("annotation", [(1, "a"), (3, "b")]),
        ("evidence", [(1, "x"), (2, "y"), (3, "z")])]).map Prod.fst := by
  have h := assemble_spec
    [("annotation", [(1, "a"), (3, "b")]),
      ("evidence", [(1, "x"), (2, "y"), (3, "z")])]
    (by decide) (by decide)
  refine ⟨h.1, (h.2.1 2).mpr ?_⟩
  exact ⟨("evidence", [(1, "x"), (2, "y"), (3, "z")]), by decide, by decide⟩

/-- C2 counterexample: `stripNulls` does not traverse sequences nested
within sequences.  For `x = {"a": [[{"b": null}]]}` the stripped result
is `x` itself, and the mapping `{"b": null}`, which sits inside a
sequence nested within a sequence, still has a key mapping to null — the
claim's "at any nesting depth" clause is false. -/
theorem stripNulls_deep_counterexample :
    stripVal (JVal.obj [("a", JVal.arr [JVal.arr [JVal.obj [("b", JVal.jnull)]]])])
        = JVal.obj [("a", JVal.arr [JVal.arr [JVal.obj [("b", JVal.jnull)]]])] ∧
    deepGoodVal
      (stripVal
        (JVal.obj [("a", JVal.arr [JVal.arr [JVal.obj [("b", JVal.jnull)]]])]))
      = false :=
  ⟨rfl, rfl⟩

/-- C2 amended: `stripNulls` is idempotent, and in the stripped result no
mapping key reachable through mappings and through a single level of
sequence nesting maps to null or an empty sequence; mappings inside
sequences nested within sequences are not traversed and may retain such
keys. -/
theorem stripNulls_idem_clean (m : List (String × JVal)) :
    stripObj (stripObj m) = stripObj m ∧ goodObj (stripObj m) = true :=
  (strip_strong (sizeOf m)).2.1 m le_rfl

/-- C3: for every set of raw evidence rows (no duplicate
(reference, code) pairs), grouping by reference into inverted evidence
records and re-flattening one row per reference per code yields the
original multiset of (reference, code) pairs. -/
theorem invert_flatten_roundtrip (rows : List (ρ × γ)) (h : rows.Nodup) :
    List.Perm (flattenInv (invert rows)) rows := by
  have h2 := invert_go_perm rows [] h (by simp [flattenInv])
  simpa [invert, flattenInv] using h2

/-- Witness for C3 on a concrete set of rows. -/
theorem invert_flatten_roundtrip_witness :
    List.Perm
      (flattenInv (invert [("R1", "C1"), ("R1", "C2"), ("R2", "C1")]))
      [("R1", "C1"), ("R1", "C2"), ("R2", "C1")] :=
  invert_flatten_roundtrip [("R1", "C1"), ("R1", "C2"), ("R2", "C1")]
    (by decide)

/-- C4 counterexample: `ref2adate` is built with `setdefault`, which keeps
the first date encountered for a reference, not the minimum.  For the
group `[(0, 2020), (0, 2019)]` (with `getTimeStamp` the identity) the
recorded date is `2020`, while the minimum of the group's dates is
`2019`: the claimed "minimum regardless of arrival order" is false. -/
theorem refDates_counterexample :
    lookupDate 0 (refDates (fun d => d) [(0, 2020), (0, 2019)]) = some 2020 ∧
    min (2020 : Nat) 2019 = 2019 ∧ (2020 : Nat) ≠ 2019 := by
  refine ⟨?_, by decide, by decide⟩
  decide

/-- C4 amended: the inverted evidence record for a reference carries the
timestamp of the first date encountered for that reference in stream
order (`setdefault` keeps the existing entry), which equals the minimum
only when the earliest date happens to arrive first. -/
theorem refDates_first (ts : δ → δ) (xs ys : List (ρ × δ)) (r : ρ) (d : δ)
    (hx : r ∉ xs.map Prod.fst) :
    lookupDate r (refDates ts (xs ++ (r, d) :: ys)) = some (ts d) := by
  unfold refDates
  rw [List.foldl_append, List.foldl_cons]
  have h1 : lookupDate r (xs.foldl (sdStep ts) []) = none :=
    lookupDate_fold_none ts xs r [] hx rfl
  have h2 : lookupDate r (sdStep ts (xs.foldl (sdStep ts) []) (r, d))
      = some (ts d) :=
    lookupDate_setdefault_new _ r (ts d) h1
  exact lookupDate_fold_some ts ys r (ts d) _ h2

/-- Witness for C4's amended claim: the first date for reference `0`
(namely `7`) is recorded even though a smaller date (`3`) follows. -/
theorem refDates_first_witness :
    lookupDate 0 (refDates (fun d => d) [(1, 5), (0, 7), (0, 3)]) = some 7 :=
  refDates_first (fun d => d) [(1, 5)] [(0, 3)] 0 7 (by decide)

/-- C6: every queried term is in its own ancestor closure (reflexivity,
with no stage condition on the term itself); a term whose validity
interval excludes the stage never appears in another term's closure, even
when it is a graph-ancestor; and a term that is not reachable through
stage-valid terms (in particular one reachable only through an excluded
term) never appears either. -/
theorem ancestorsAt_spec [DecidableEq ι] (g : EmapaData ι) (fuel stage : Nat)
    (termId : ι) (hterm : (g.terms termId).isSome) :
    termId ∈ ancestorsAt g fuel termId stage ∧
    (∀ t' p', g.terms t' = some p' →
      ¬(p'.startstage ≤ stage ∧ stage ≤ p'.endstage) → t' ≠ termId →
      t' ∉ ancestorsAt g fuel termId stage) ∧
    (∀ x, ¬ ValidReach g stage termId x → x ≠ termId →
      x ∉ ancestorsAt g fuel termId stage) := by
  have hmem : ∀ x, x ∈ ancestorsAt g fuel termId stage →
      x = termId ∨ (ValidAt g stage x ∧ ValidReach g stage termId x) := by
    intro x hx
    rw [ancestorsAt, List.mem_dedup] at hx
    rcases List.mem_cons.mp hx with rfl | hx
    · exact Or.inl rfl
    · exact Or.inr (visitTerm_sound g stage fuel termId x hx)
  refine ⟨?_, ?_, ?_⟩
  · rw [ancestorsAt, List.mem_dedup]
    exact List.mem_cons_self _ _
  · intro t' p' hp' hnv hne hin
    rcases hmem t' hin with rfl | ⟨⟨tp, htp, hv⟩, _⟩
    · exact hne rfl
    · rw [hp'] at htp
      cases htp
      exact hnv hv
  · intro x hnr hne hin
    rcases hmem x hin with rfl | ⟨_, hr⟩
    · exact hne rfl
    · exact hnr hr

/-- Witness for C6: in the chain graph `g6` at stage `1`, the queried
term `0` is in its own closure and the graph-ancestor `2`, whose interval
`[3,5]` excludes stage `1`, is pruned. -/
theorem ancestorsAt_spec_witness :
    0 ∈ ancestorsAt g6 5 0 1 ∧ 2 ∉ ancestorsAt g6 5 0 1 := by
  have h := ancestorsAt_spec g6 5 1 0 (by decide)
  exact ⟨h.1, h.2.1 2 ⟨3, 5⟩ (by decide) (by decide) (by decide)⟩

/-- C7 counterexample: the walk keeps no visited-set.  In the diamond
graph `g7`, the upward walk from term `3` enters the shared top ancestor
`0` twice (once per path): the trace of terms entered is `[2, 0, 1, 0]`,
so the claim that the walk "never re-visits a term already collected /
uses a visited-set keyed by term ID" is false. -/
theorem ancestorsAt_counterexample :
    (visitTerm g7 5 10 3).count 0 = 2 := by decide

/-- C7 amended: on every parent relation acyclic on the stage-valid terms
(witnessed by a rank function strictly decreasing across stage-valid
parent edges), `ancestorsAt` terminates — in the fuel model, the walk's
trace and the closure are independent of the recursion bound once it
reaches the queried term's rank.  The walk does not keep a visited-set
and may re-enter a term already collected (it re-enters a shared diamond
ancestor once per path), so the work bound is the number of stage-valid
paths, not the number of terms. -/
theorem ancestorsAt_terminates [DecidableEq ι] (g : EmapaData ι)
    (stage : Nat) (h : ι → Nat)
    (hrank : ∀ t pid, pid ∈ g.parents t → ValidAt g stage pid → h pid < h t)
    (t : ι) (f f' : Nat) (hf : h t ≤ f) (hf' : h t ≤ f') :
    visitTerm g stage f t = visitTerm g stage f' t ∧
    ancestorsAt g f t stage = ancestorsAt g f' t stage := by
  have heq := visitTerm_stable_aux g stage h hrank (h t) t f f' le_rfl hf hf'
  exact ⟨heq, by rw [ancestorsAt, ancestorsAt, heq]⟩

/-- Witness for C7's amended claim on the concrete diamond `g7` with the
identity rank function: any two bounds at least `3` give the same
closure. -/
theorem ancestorsAt_terminates_witness :
    visitTerm g7 5 10 3 = visitTerm g7 5 3 3 ∧
    ancestorsAt g7 10 3 5 = ancestorsAt g7 3 3 5 := by
  have hrank : ∀ t pid, pid ∈ g7.parents t → ValidAt g7 5 pid → pid < t := by
    intro t pid hmem _
    by_cases h3 : t = 3
    · subst h3
      simp [g7] at hmem
      rcases hmem with rfl | rfl
      · omega
      · omega
    · by_cases h2 : t = 2
      · subst h2
        simp [g7] at hmem
        omega
      · by_cases h1 : t = 1
        · subst h1
          simp [g7] at hmem
          omega
        · simp [g7, h3, h2, h1] at hmem
  exact ancestorsAt_terminates g7 5 (fun t => t) hrank 3 10 3 (by decide)
    (by decide)

/-- C10: in the variant driver, a row whose conversion raises (including
the `RuntimeError` for an unknown variant type) is skipped with a
diagnostic on the error stream while every other row is still processed
(the run does not abort); a row whose conversion returns `None` is
skipped silently; and a deletion, insertion, MNV or point-mutation row
failing its sequence-length/padding-base checks yields `None` from
`getJsonObj` rather than terminating the run. -/
theorem processVariants_skip_spec :
    (∀ (xs ys : List VRow) (r : VRow) (e : String),
      getJsonObj r = Except.error e →
        (processVariants (xs ++ r :: ys)).1
            = (processVariants xs).1 ++ (processVariants ys).1 ∧
        ("Skipping variant because of error: key=" ++ r.variant_key)
            ∈ (processVariants (xs ++ r :: ys)).2) ∧
    (∀ (xs ys : List VRow) (r : VRow),
      getJsonObj r = Except.ok none →
        processVariants (xs ++ r :: ys)
            = ((processVariants xs).1 ++ (processVariants ys).1,
               (processVariants xs).2 ++ (processVariants ys).2)) ∧
    (∀ (r : VRow), wellFormed r →
      (r.vtype = some "SO:0000159" →
          (cleanseSequence r.variantsequence).length ≠ 1 →
          getJsonObj r = Except.ok none) ∧
      (r.vtype = some "SO:0000159" →
          (cleanseSequence r.variantsequence).length = 1 →
          (cleanseSequence r.referencesequence).length ≠ 0 →
          (cleanseSequence r.referencesequence).take 1
              ≠ cleanseSequence r.variantsequence →
          getJsonObj r = Except.ok none) ∧
      (r.vtype = some "SO:0000667" →
          (cleanseSequence r.referencesequence).length ≠ 1 →
          getJsonObj r = Except.ok none) ∧
      (r.vtype = some "SO:0000667" →
          (cleanseSequence r.referencesequence).length = 1 →
          (cleanseSequence r.variantsequence).length ≠ 0 →
          cleanseSequence r.referencesequence
              ≠ (cleanseSequence r.variantsequence).take 1 →
          getJsonObj r = Except.ok none) ∧
      (r.vtype = some "SO:0002007" →
          (cleanseSequence r.referencesequence).length
              ≠ (cleanseSequence r.variantsequence).length →
          getJsonObj r = Except.ok none) ∧
      (r.vtype = some "SO:1000008" →
          ((cleanseSequence r.referencesequence).length ≠ 1 ∨
            (cleanseSequence r.variantsequence).length ≠ 1) →
          getJsonObj r = Except.ok none) ∧
      (∀ vt, r.vtype = some vt →
          vt ∉ ["SO:0000159", "SO:0000667", "SO:0002007", "SO:1000032",
            "SO:1000008"] →
          getJsonObj r
            = Except.error ("Unknown or unhandled vtype: " ++ vt))) := by
  refine ⟨?_, ?_, ?_⟩
  · intro xs ys r e h
    have hr : processVariants (r :: ys)
        = ((processVariants ys).1,
           ("Skipping variant because of error: key=" ++ r.variant_key)
             :: (processVariants ys).2) := by
      simp only [processVariants, h]
    rw [processVariants_append xs (r :: ys), hr]
    exact ⟨rfl, List.mem_append_right _ (List.mem_cons_self _ _)⟩
  · intro xs ys r h
    have hr : processVariants (r :: ys) = processVariants ys := by
      simp only [processVariants, h]
    rw [processVariants_append xs (r :: ys), hr]
  · intro r hwf
    rcases hwf with ⟨h1, h2, h3⟩
    rw [Option.isSome_iff_exists] at h1 h2 h3
    obtain ⟨st, hst⟩ := h1
    obtain ⟨en, hen⟩ := h2
    obtain ⟨acc, hacc⟩ := h3
    refine ⟨?_, ?_, ?_, ?_, ?_, ?_, ?_⟩
    · intro hvt hlen
      simp only [getJsonObj, hst, hen, hacc, hvt]
      simp [hlen]
    · intro hvt hlen hne0 htake
      simp only [getJsonObj, hst, hen, hacc, hvt]
      simp [hlen, hne0, htake]
    · intro hvt hlen
      simp only [getJsonObj, hst, hen, hacc, hvt]
      simp [hlen]
    · intro hvt hlen hne0 htake
      simp only [getJsonObj, hst, hen, hacc, hvt]
      simp [hlen, hne0, htake]
    · intro hvt hne
      simp only [getJsonObj, hst, hen, hacc, hvt]
      simp [hne]
    · intro hvt hor
      simp only [getJsonObj, hst, hen, hacc, hvt]
      rw [if_neg (by decide), if_neg (by decide), if_neg (by decide),
        if_neg (by decide), if_pos trivial, if_pos hor]
    · intro vt hvt hnin
      have hn1 : vt ≠ "SO:0000159" := fun h => hnin (by simp [h])
      have hn2 : vt ≠ "SO:0000667" := fun h => hnin (by simp [h])
      have hn3 : vt ≠ "SO:0002007" := fun h => hnin (by simp [h])
      have hn4 : vt ≠ "SO:1000032" := fun h => hnin (by simp [h])
      have hn5 : vt ≠ "SO:1000008" := fun h => hnin (by simp [h])
      simp only [getJsonObj, hst, hen, hacc, hvt]
      rw [if_neg hn1, if_neg hn2, if_neg hn3, if_neg hn4, if_neg hn5]

/-- Witness for C10: with a good row on each side of an unknown-type row,
only the bad row is dropped, its diagnostic is logged, and processing
continues; a deletion row failing the length check converts to `None`. -/
theorem processVariants_skip_spec_witness :
    (processVariants ([vRowOk1] ++ vRowUnknown :: [vRowOk2])).1
        = (processVariants [vRowOk1]).1 ++ (processVariants [vRowOk2]).1 ∧
    ("Skipping variant because of error: key=" ++ vRowUnknown.variant_key)
        ∈ (processVariants ([vRowOk1] ++ vRowUnknown :: [vRowOk2])).2 ∧
    getJsonObj vRowDelBad = Except.ok none := by
  have hwfU : wellFormed vRowUnknown := ⟨by decide, by decide, by decide⟩
  have hbad := (processVariants_skip_spec.2.2 vRowUnknown hwfU).2.2.2.2.2.2
    "SO:9999999" rfl (by decide)
  have hmain := processVariants_skip_spec.1 [vRowOk1] [vRowOk2] vRowUnknown
    ("Unknown or unhandled vtype: " ++ "SO:9999999") hbad
  have hwfD : wellFormed vRowDelBad := ⟨by decide, by decide, by decide⟩
  exact ⟨hmain.1, hmain.2,
    (processVariants_skip_spec.2.2 vRowDelBad hwfD).1 rfl (by decide)⟩

/-- Witness for C9: an allow-listed row is translated and retained. -/
theorem formatXrefs_allowlist_witness :
    ("NCBIGene", "123") ∈ xrefStep [("Entrez Gene", "123"), ("FooDB", "9")] :=
  (formatXrefs_allowlist [("Entrez Gene", "123"), ("FooDB", "9")]
    "NCBIGene" "123").mpr ⟨"Entrez Gene", by decide, by decide⟩

end AGRdatafeed
